import Mathlib

/-!
# Verification of the Image-Colorization core against its specification

Shallow embedding of the two source files:

* `src/etl.py` — the color-space ETL pipeline (`ETL.__init__`, `ETL.next_batch`,
  `ETL.rgb2yuv`, `ETL.yuv2rgb`).  Pixel values are modelled as exact rationals.
* `src/generator.py` — the generator network (`Generator.__init__`,
  `Generator.forward`, `Generator.conv_block`).  Tensor entries are modelled
  as real numbers.

Definitions are translated from the source; theorems settle the frozen claims.
-/

namespace ImageColorization

/-! ## Images (ETL data model)

An image in `etl.py` is an `H × W × 3` float array with the channel axis last
(`images[:, :, :, 0]` slices channel 0).  `pix i j c` is the value of channel
`c` of the pixel at row `i`, column `j`; the function is total, with entries
outside `h × w` irrelevant to every operation (all operations are pixelwise).
-/

structure Image where
  h : ℕ
  w : ℕ
  pix : ℕ → ℕ → Fin 3 → ℚ

/-- Single-channel image: the `y = images[:, :, :, 0].unsqueeze(-1)` slice
returned by `next_batch`. -/
structure LumaImage where
  h : ℕ
  w : ℕ
  pix : ℕ → ℕ → ℚ

/-- The fixed 3×3 coefficient matrix `cvt_matrix` of `ETL.rgb2yuv`
(rows as written in the source). -/
def cvtMatrixYUV : Fin 3 → Fin 3 → ℚ :=
  ![![0.299, -0.169, 0.5],
    ![0.587, -0.331, -0.419],
    ![0.114, 0.5, -0.081]]

/-- The approximate inverse coefficient matrix `cvt_matrix` of `ETL.yuv2rgb`. -/
def cvtMatrixRGB : Fin 3 → Fin 3 → ℚ :=
  ![![1, 1, 1],
    ![-0.00093, -0.3437, 1.77216],
    ![1.401687, -0.71417, 0.00099]]

/-- numpy `a.dot(M)` on the channel axis of an `H×W×3` array:
`out[..., c] = ∑ k, a[..., k] * M[k, c]`. -/
def npDot (p : Fin 3 → ℚ) (M : Fin 3 → Fin 3 → ℚ) (c : Fin 3) : ℚ :=
  ∑ k, p k * M k c

/-- The per-channel offset `[0, 127.5, 127.5]` added in `rgb2yuv` and
subtracted in place in `yuv2rgb`. -/
def offVec : Fin 3 → ℚ := ![0, 127.5, 127.5]

/-- Source `ETL.rgb2yuv`: `image = image.dot(cvt_matrix) + [0, 127.5, 127.5]`,
then `return image / 127.5 - 1.`. -/
def rgb2yuv (img : Image) : Image :=
  ⟨img.h, img.w, fun i j c => (npDot (img.pix i j) cvtMatrixYUV c + offVec c) / 127.5 - 1⟩

/-- numpy `.clip(min=0, max=255)` on one entry. -/
def clip255 (x : ℚ) : ℚ := max 0 (min x 255)

/-- Source `ETL.yuv2rgb`.  The source mutates its argument in place
(`image -= [0, 127.5, 127.5]`) before the matrix multiply, so the embedding
returns the pair (returned array, caller's array after the call). -/
def yuv2rgb (img : Image) : Image × Image :=
  (⟨img.h, img.w, fun i j c => clip255 (npDot (fun k => img.pix i j k - offVec k) cvtMatrixRGB c)⟩,
   ⟨img.h, img.w, fun i j c => img.pix i j c - offVec c⟩)

/-! ## Data loading (`ETL.__init__`, `ETL.next_batch`)

`ETL.__init__` builds `iter(DataLoader(cap, self.batch_size))`.  The `shuffle`
argument is left at its default `False`, so the loader uses the sequential
sampler: it visits the dataset in dataset order, in consecutive groups of
`batch_size` (default `drop_last=False`, so the last group may be shorter),
and `next()` raises `StopIteration` after the last group.
-/

/-- Iteration order of the `DataLoader` constructed in `ETL.__init__`: the
dataset order itself.  The `seed` argument models the ambient process-wide
random state at construction/reset time; because the source leaves `shuffle`
at its default `False`, the order does not depend on it. -/
def loaderOrder (seed : ℕ) (data : List Image) : List Image := data

/-- Consecutive batches of size `bs` (last one possibly shorter), as produced
by `DataLoader` with `drop_last=False`. -/
def chunksOf {α : Type} (bs : ℕ) : List α → List (List α)
  | [] => []
  | x :: xs =>
    if h : bs = 0 then []
    else (x :: xs).take bs :: chunksOf bs ((x :: xs).drop bs)
termination_by l => l.length
decreasing_by
  simp only [List.length_drop, List.length_cons]
  omega

theorem chunksOf_nil {α : Type} (bs : ℕ) : chunksOf (α := α) bs [] = [] := by
  rw [chunksOf]

theorem chunksOf_cons {α : Type} (bs : ℕ) (x : α) (xs : List α) (hbs : bs ≠ 0) :
    chunksOf bs (x :: xs) = (x :: xs).take bs :: chunksOf bs ((x :: xs).drop bs) := by
  rw [chunksOf]
  simp [hbs]

theorem chunksOf_ne_nil {α : Type} (bs : ℕ) (l : List α) (hbs : bs ≠ 0) (hl : l ≠ []) :
    chunksOf bs l = l.take bs :: chunksOf bs (l.drop bs) := by
  cases l with
  | nil => exact absurd rfl hl
  | cons x xs => exact chunksOf_cons bs x xs hbs

/-- The loader state after construction: the remaining batches of the current
pass.  `batchSize` and `imageSize` are the constructor parameters (the latter
only configures the augmentation pipeline, which operates pixelwise and does
not affect batching). -/
structure ETLState where
  batchSize : ℕ
  batches : List (List Image)

/-- The `StopIteration` control signal raised by `next()` on an exhausted
loader; a distinguished condition, not a data error. -/
inductive EtlStop
  | stopIteration
deriving DecidableEq

/-- Construction `ETL.__init__(batch_size, image_size)` applied to the images found under
the training directory (`data`), together with the process random state
(`seed`). -/
def ETL.init (seed batchSize imageSize : ℕ) (data : List Image) : ETLState :=
  ⟨batchSize, chunksOf batchSize (loaderOrder seed data)⟩

/-- Slice `y = images[:, :, :, 0].unsqueeze(-1)`: the channel-0 slice. -/
def lumaOf (img : Image) : LumaImage := ⟨img.h, img.w, fun i j => img.pix i j 0⟩

/-- Source `ETL.next_batch`: take the loader's next batch (`StopIteration` when
exhausted), convert every image with `rgb2yuv` via the order-preserving
`pool.map`, and return the channel-0 slice together with the converted batch
and the advanced loader. -/
def ETL.nextBatch (s : ETLState) : Except EtlStop ((List LumaImage × List Image) × ETLState) :=
  match s.batches with
  | [] => .error .stopIteration
  | b :: rest =>
    .ok (((b.map rgb2yuv).map lumaOf, b.map rgb2yuv), ⟨s.batchSize, rest⟩)

/-! ## Claim C4: the RGB→LumaChroma conversion formula and range -/

/-- The conversion as the spec's words describe it (claim C4): multiply each
pixel's RGB vector by the fixed 3×3 coefficient matrix, add the offset vector
`[0, 127.5, 127.5]`, then apply `(x / 127.5) - 1` elementwise. -/
def rgb2yuvSpec (img : Image) : Image :=
  ⟨img.h, img.w, fun i j c => ((∑ k, img.pix i j k * cvtMatrixYUV k c) + offVec c) / 127.5 - 1⟩

/-- C4: for every H×W×3 image with values in [0,255], `rgb2yuv` returns exactly
the image obtained by the spec's matrix-multiply / offset / normalize
procedure, and every channel of the result lies within [-1,1]. -/
theorem rgb2yuv_matches_spec_and_range (img : Image)
    (hrange : ∀ i j : ℕ, ∀ c : Fin 3, i < img.h → j < img.w →
      0 ≤ img.pix i j c ∧ img.pix i j c ≤ 255) :
    rgb2yuv img = rgb2yuvSpec img ∧
      ∀ i j : ℕ, ∀ c : Fin 3, i < img.h → j < img.w →
        -1 ≤ (rgb2yuv img).pix i j c ∧ (rgb2yuv img).pix i j c ≤ 1 := by
  constructor
  · rfl
  · intro i j c hi hj
    obtain ⟨hr0, hr1⟩ := hrange i j 0 hi hj
    obtain ⟨hg0, hg1⟩ := hrange i j 1 hi hj
    obtain ⟨hb0, hb1⟩ := hrange i j 2 hi hj
    have h255 : (0:ℚ) < 127.5 := by norm_num
    constructor <;> fin_cases c <;>
    · simp [rgb2yuv, npDot, cvtMatrixYUV, offVec, Fin.sum_univ_three]
      first
        | · apply div_nonneg _ (by norm_num)
            linarith
        | · rw [div_le_iff₀ h255]
            linarith

/-- Witness for C4 at a concrete mid-gray 2×2 image. -/
def grayImage : Image := ⟨2, 2, fun _ _ _ => 100⟩

/-- C4 witness: the theorem applied to `grayImage`. -/
theorem rgb2yuv_matches_spec_and_range_witness :
    rgb2yuv grayImage = rgb2yuvSpec grayImage ∧
      -1 ≤ (rgb2yuv grayImage).pix 0 0 1 ∧ (rgb2yuv grayImage).pix 0 0 1 ≤ 1 := by
  have h := rgb2yuv_matches_spec_and_range grayImage
    (fun i j c hi hj => by constructor <;> norm_num [grayImage])
  exact ⟨h.1, h.2 0 0 1 (by norm_num [grayImage]) (by norm_num [grayImage])⟩

/-! ## Claim C5: the RGB→LumaChroma→RGB round trip is lossy but bounded -/

/-- Undoing the [-1,1] normalization before the inverse step (claim C5's round
trip procedure): `x ↦ (x + 1) * 127.5`. -/
def denormalize (img : Image) : Image :=
  ⟨img.h, img.w, fun i j c => (img.pix i j c + 1) * 127.5⟩

/-- The round trip of claim C5: RGB → LumaChroma (`rgb2yuv`), undo the
normalization, then back to RGB (`yuv2rgb`'s returned array). -/
def roundTrip (img : Image) : Image := (yuv2rgb (denormalize (rgb2yuv img))).1

/-- Clipping to [0,255] can only move a value closer to any target already in
[0,255]. -/
theorem clip255_abs_le (y t : ℚ) (h0 : 0 ≤ t) (h255 : t ≤ 255) :
    |clip255 y - t| ≤ |y - t| := by
  have h1 := le_abs_self (y - t)
  have h2 := neg_abs_le (y - t)
  rw [abs_le]
  unfold clip255
  constructor <;> · simp only [max_def, min_def]; split_ifs <;> linarith

/-- C5: for every image with integer channel values in [0,255], the round trip
RGB→LumaChroma→RGB recovers every in-range pixel channel to within 2. -/
theorem roundTrip_close (img : Image)
    (hint : ∀ i j : ℕ, ∀ c : Fin 3, i < img.h → j < img.w →
      ∃ k : ℕ, k ≤ 255 ∧ img.pix i j c = (k : ℚ)) :
    ∀ i j : ℕ, ∀ c : Fin 3, i < img.h → j < img.w →
      |(roundTrip img).pix i j c - img.pix i j c| ≤ 2 := by
  intro i j c hi hj
  obtain ⟨kr, hkr, hr⟩ := hint i j 0 hi hj
  obtain ⟨kg, hkg, hg⟩ := hint i j 1 hi hj
  obtain ⟨kb, hkb, hb⟩ := hint i j 2 hi hj
  have hr0 : 0 ≤ img.pix i j 0 := by rw [hr]; positivity
  have hr1 : img.pix i j 0 ≤ 255 := by rw [hr]; exact_mod_cast hkr
  have hg0 : 0 ≤ img.pix i j 1 := by rw [hg]; positivity
  have hg1 : img.pix i j 1 ≤ 255 := by rw [hg]; exact_mod_cast hkg
  have hb0 : 0 ≤ img.pix i j 2 := by rw [hb]; positivity
  have hb1 : img.pix i j 2 ≤ 255 := by rw [hb]; exact_mod_cast hkb
  fin_cases c <;>
  · simp only [roundTrip, yuv2rgb, denormalize, rgb2yuv]
    refine le_trans (clip255_abs_le _ _
      (by first | exact hr0 | exact hg0 | exact hb0)
      (by first | exact hr1 | exact hg1 | exact hb1)) ?_
    rw [abs_le]
    constructor <;>
    · simp [npDot, cvtMatrixYUV, cvtMatrixRGB, offVec, Fin.sum_univ_three]
      ring_nf
      linarith

/-! ## Claim C10: `yuv2rgb` mutates its argument in place -/

/-- C10: after `yuv2rgb`, the caller's array has had the offset `[0,127.5,127.5]`
subtracted from its channels (the in-place `image -= [0, 127.5, 127.5]`), and
its chroma channels no longer hold their original values. -/
theorem yuv2rgb_mutates_input (img : Image) :
    (∀ i j : ℕ, ∀ c : Fin 3, (yuv2rgb img).2.pix i j c = img.pix i j c - offVec c) ∧
    (∀ i j : ℕ, (yuv2rgb img).2.pix i j 1 ≠ img.pix i j 1 ∧
      (yuv2rgb img).2.pix i j 2 ≠ img.pix i j 2) := by
  constructor
  · intro i j c
    rfl
  · intro i j
    constructor <;>
    · simp only [yuv2rgb, offVec, sub_eq_self]
      norm_num

/-! ## Claim C6: batch sizes over a 10-image dataset, then exhaustion -/

/-- Result of the `(n+1)`-th `next_batch()` call on a freshly constructed
pipeline (test driver for the exhaustion claim). -/
def runBatches (s : ETLState) : ℕ → Except EtlStop ((List LumaImage × List Image) × ETLState)
  | 0 => ETL.nextBatch s
  | n + 1 =>
    match runBatches s n with
    | .error e => .error e
    | .ok (_, s') => ETL.nextBatch s'

/-- The leading (batch) dimensions `(y.length, full.length)` of the
`(n+1)`-th `next_batch()` call. -/
def callSizes (s : ETLState) (n : ℕ) : Except EtlStop (ℕ × ℕ) :=
  (runBatches s n).map fun yfs => (yfs.1.1.length, yfs.1.2.length)

/-- C6: on a 10-image dataset with batch size 4, the first three calls return
batches with leading dimension 4, 4, 2, and the 4th call signals the
distinguished `StopIteration` exhaustion condition. -/
theorem nextBatch_sizes_10_4 (seed imageSize : ℕ) (data : List Image)
    (h10 : data.length = 10) :
    callSizes (ETL.init seed 4 imageSize data) 0 = .ok (4, 4) ∧
    callSizes (ETL.init seed 4 imageSize data) 1 = .ok (4, 4) ∧
    callSizes (ETL.init seed 4 imageSize data) 2 = .ok (2, 2) ∧
    runBatches (ETL.init seed 4 imageSize data) 3 = .error .stopIteration := by
  have hd : data ≠ [] := by
    intro h
    rw [h] at h10
    simp at h10
  have hl1 : (data.drop 4).length = 6 := by simp [h10]
  have hd1 : data.drop 4 ≠ [] := by
    intro h
    rw [h] at hl1
    simp at hl1
  have hl2 : (data.drop 8).length = 2 := by simp [h10]
  have hd2 : data.drop 8 ≠ [] := by
    intro h
    rw [h] at hl2
    simp at hl2
  have hdd : (data.drop 4).drop 4 = data.drop 8 := by simp
  have hddd : (data.drop 8).drop 4 = [] := by
    rw [← List.length_eq_zero]
    simp [h10]
  have hc1 : chunksOf 4 data = data.take 4 :: chunksOf 4 (data.drop 4) :=
    chunksOf_ne_nil 4 data (by norm_num) hd
  have hc2 : chunksOf 4 (data.drop 4) = (data.drop 4).take 4 :: chunksOf 4 (data.drop 8) := by
    rw [chunksOf_ne_nil 4 _ (by norm_num) hd1, hdd]
  have hc3 : chunksOf 4 (data.drop 8) = [(data.drop 8).take 4] := by
    rw [chunksOf_ne_nil 4 _ (by norm_num) hd2, hddd, chunksOf_nil]
  refine ⟨?_, ?_, ?_, ?_⟩ <;>
    simp [callSizes, runBatches, ETL.init, loaderOrder, ETL.nextBatch, hc1, hc2, hc3,
      Except.map, h10]

/-! ## Claim C7: the iteration order is NOT a fresh shuffle (corrected) -/

/-- A concrete 10-image dataset. -/
def tenImages : List Image := List.replicate 10 grayImage

/-- C7 counterexample: the claim asserts the visiting order is a random
shuffle freshly redrawn per construction/reset (so two constructions under
different random states could differ).  On the concrete 10-image dataset this
is false: the order never depends on the random state, because `ETL.__init__`
leaves `DataLoader`'s `shuffle` at its default `False`. -/
theorem loaderOrder_not_shuffled :
    ¬ ∃ s1 s2 : ℕ, loaderOrder s1 tenImages ≠ loaderOrder s2 tenImages := by
  rintro ⟨s1, s2, h⟩
  exact h rfl

/-- C7 amended: `next_batch` draws batches without replacement from the
dataset's own fixed order: one full pass visits every image exactly once (the
concatenation of all batches is the dataset), and the order is the same
deterministic sequence regardless of the random state at construction or
reset. -/
theorem loaderOrder_fixed_and_without_replacement (seed seed2 bs : ℕ) (data : List Image)
    (hbs : bs ≠ 0) :
    (chunksOf bs (loaderOrder seed data)).flatten = data ∧
    loaderOrder seed data = loaderOrder seed2 data := by
  constructor
  · have H : ∀ n : ℕ, ∀ l : List Image, l.length ≤ n → (chunksOf bs l).flatten = l := by
      intro n
      induction n with
      | zero =>
        intro l hl
        have : l = [] := by
          rw [← List.length_eq_zero]
          omega
        rw [this, chunksOf_nil, List.flatten_nil]
      | succ n ih =>
        intro l hl
        cases l with
        | nil => rw [chunksOf_nil, List.flatten_nil]
        | cons x xs =>
          rw [chunksOf_cons bs x xs hbs, List.flatten_cons, ih]
          · exact List.take_append_drop _ _
          · simp only [List.length_drop, List.length_cons]
            simp only [List.length_cons] at hl
            omega
    exact H data.length data le_rfl
  · rfl

/-- C7 witness: the amended order theorem at batch size 4 on the concrete
10-image dataset, under random states 0 and 1. -/
theorem loaderOrder_fixed_witness :
    (chunksOf 4 (loaderOrder 0 tenImages)).flatten = tenImages ∧
    loaderOrder 0 tenImages = loaderOrder 1 tenImages :=
  loaderOrder_fixed_and_without_replacement 0 1 4 tenImages (by norm_num)

/-- C6 witness: the batch-size theorem at the concrete 10-image dataset. -/
theorem nextBatch_sizes_10_4_witness :
    callSizes (ETL.init 0 4 64 tenImages) 0 = .ok (4, 4) ∧
    callSizes (ETL.init 0 4 64 tenImages) 1 = .ok (4, 4) ∧
    callSizes (ETL.init 0 4 64 tenImages) 2 = .ok (2, 2) ∧
    runBatches (ETL.init 0 4 64 tenImages) 3 = .error .stopIteration :=
  nextBatch_sizes_10_4 0 64 tenImages (by simp [tenImages])

/-- C5 witness: the round-trip bound at the concrete mid-gray image. -/
theorem roundTrip_close_witness :
    |(roundTrip grayImage).pix 0 0 0 - grayImage.pix 0 0 0| ≤ 2 :=
  roundTrip_close grayImage
    (fun i j c hi hj => ⟨100, by norm_num, by norm_num [grayImage]⟩)
    0 0 0 (by norm_num [grayImage]) (by norm_num [grayImage])

/-! ## Generator network (`src/generator.py`)

PyTorch tensors are laid out `N × C × H × W` (`torch.cat([•, •], 1)`
concatenates channels).  `data` is a total function; entries outside the
declared dimensions are irrelevant to every operation.  Entries are real
numbers, the exact model of the source's float arithmetic.  Shape-checked
operations return `Except GenError`, mirroring the runtime errors PyTorch
raises on mismatched shapes (the spec's `ShapeMismatchError`).
-/

structure Tensor4 where
  n : ℕ
  c : ℕ
  h : ℕ
  w : ℕ
  data : ℕ → ℕ → ℕ → ℕ → ℝ

instance : Inhabited Tensor4 := ⟨⟨0, 0, 0, 0, fun _ _ _ _ => 0⟩⟩

/-- The single failure mode of the embedded forward pass: a shape/channel
mismatch. -/
inductive GenError
  | shapeMismatch
deriving DecidableEq

/-- Operation `torch.cat([a, b], 1)` — the produced tensor. -/
def catT (a b : Tensor4) : Tensor4 :=
  ⟨a.n, a.c + b.c, a.h, a.w, fun n c i j =>
    if c < a.c then a.data n c i j else b.data n (c - a.c) i j⟩

/-- Operation `torch.cat([a, b], 1)`: all dimensions except the channel one must
match. -/
def cat (a b : Tensor4) : Except GenError Tensor4 :=
  if a.n = b.n ∧ a.h = b.h ∧ a.w = b.w then .ok (catT a b) else .error .shapeMismatch

/-- Parameters of one `nn.Conv2d(inC, outC, kernel, padding=pad)` layer.
`weight co ci kh kw` is the kernel entry, `bias co` the per-output-channel
bias. -/
structure Conv2d where
  inC : ℕ
  outC : ℕ
  kernel : ℕ
  pad : ℕ
  weight : ℕ → ℕ → ℕ → ℕ → ℝ
  bias : ℕ → ℝ

/-- Zero-padded read of one spatial location. -/
def padRead (x : Tensor4) (n c : ℕ) (i j : ℤ) : ℝ :=
  if 0 ≤ i ∧ i < (x.h : ℤ) ∧ 0 ≤ j ∧ j < (x.w : ℤ) then x.data n c i.toNat j.toNat else 0

/-- Operation `nn.Conv2d` application (stride 1) — the produced tensor. -/
def conv2dT (p : Conv2d) (x : Tensor4) : Tensor4 :=
  ⟨x.n, p.outC, x.h + 2 * p.pad + 1 - p.kernel, x.w + 2 * p.pad + 1 - p.kernel,
    fun n co i j =>
      p.bias co + ∑ ci ∈ Finset.range p.inC, ∑ kh ∈ Finset.range p.kernel,
        ∑ kw ∈ Finset.range p.kernel,
          p.weight co ci kh kw *
            padRead x n ci ((i : ℤ) + (kh : ℤ) - (p.pad : ℤ)) ((j : ℤ) + (kw : ℤ) - (p.pad : ℤ))⟩

/-- Operation `nn.Conv2d` application: the input channel count must equal the declared
one and the padded input must be at least as large as the kernel. -/
def conv2dApply (p : Conv2d) (x : Tensor4) : Except GenError Tensor4 :=
  if x.c = p.inC ∧ p.kernel ≤ x.h + 2 * p.pad ∧ p.kernel ≤ x.w + 2 * p.pad then
    .ok (conv2dT p x)
  else .error .shapeMismatch

/-- Affine parameters of one `nn.BatchNorm2d(features, momentum=.9)` layer
(`weight` is γ, `bias` is β). -/
structure BatchNorm2d where
  features : ℕ
  weight : ℕ → ℝ
  bias : ℕ → ℝ

/-- Default `eps` of `nn.BatchNorm2d`. -/
noncomputable def bnEps : ℝ := 1 / 100000

/-- Per-channel batch mean over batch and spatial dimensions. -/
noncomputable def bnMean (x : Tensor4) (c : ℕ) : ℝ :=
  (∑ n ∈ Finset.range x.n, ∑ i ∈ Finset.range x.h, ∑ j ∈ Finset.range x.w,
    x.data n c i j) / (x.n * x.h * x.w)

/-- Per-channel (biased) batch variance. -/
noncomputable def bnVar (x : Tensor4) (c : ℕ) : ℝ :=
  (∑ n ∈ Finset.range x.n, ∑ i ∈ Finset.range x.h, ∑ j ∈ Finset.range x.w,
    (x.data n c i j - bnMean x c) ^ 2) / (x.n * x.h * x.w)

/-- Operation `nn.BatchNorm2d` in training mode — the produced tensor (normalize by the
batch statistics, then apply the affine parameters).  The running-statistics
update it also performs does not influence the produced values. -/
noncomputable def batchNorm2dT (p : BatchNorm2d) (x : Tensor4) : Tensor4 :=
  ⟨x.n, x.c, x.h, x.w, fun n c i j =>
    p.weight c * ((x.data n c i j - bnMean x c) / Real.sqrt (bnVar x c + bnEps)) + p.bias c⟩

/-- Operation `nn.BatchNorm2d` in training mode: the channel count must match the
declared feature count, and training-mode normalization needs more than one
value per channel. -/
noncomputable def batchNorm2dApply (p : BatchNorm2d) (x : Tensor4) : Except GenError Tensor4 :=
  if x.c = p.features ∧ 1 < x.n * x.h * x.w then .ok (batchNorm2dT p x)
  else .error .shapeMismatch

/-- Activation `nn.ReLU()`. -/
noncomputable def reluT (x : Tensor4) : Tensor4 :=
  ⟨x.n, x.c, x.h, x.w, fun n c i j => max (x.data n c i j) 0⟩

/-- Activation `nn.Tanh()`. -/
noncomputable def tanhT (x : Tensor4) : Tensor4 :=
  ⟨x.n, x.c, x.h, x.w, fun n c i j => Real.tanh (x.data n c i j)⟩

/-- The learned parameter values of the generator: `convWeight b` / `convBias b`
belong to `conv{b}`, `normWeight b` / `normBias b` to `norm{b}`.  The layer
shapes are fixed by `Generator.__init__` (see `Generator.convAt` and
`Generator.normAt`); the values are arbitrary — the constructor draws weights
from Normal(0, 0.02) and the external optimizer mutates them. -/
structure Generator where
  convWeight : ℕ → ℕ → ℕ → ℕ → ℕ → ℝ
  convBias : ℕ → ℕ → ℝ
  normWeight : ℕ → ℕ → ℝ
  normBias : ℕ → ℕ → ℝ

/-- The `getattr(self, "conv{}".format(block))` dispatch, with the layer
shapes declared in `Generator.__init__`: `Conv2d(3,128,7,padding=3)`,
`Conv2d(129,64,5,padding=2)`, `Conv2d(65,64,5,padding=2)` (×2),
`Conv2d(65,32,5,padding=2)`, `Conv2d(33,2,5,padding=2)`.  `forward` only ever
uses blocks 1–6; indices outside that range are mapped to the final conv. -/
def Generator.convAt (G : Generator) : ℕ → Conv2d
  | 1 => ⟨3, 128, 7, 3, G.convWeight 1, G.convBias 1⟩
  | 2 => ⟨129, 64, 5, 2, G.convWeight 2, G.convBias 2⟩
  | 3 => ⟨65, 64, 5, 2, G.convWeight 3, G.convBias 3⟩
  | 4 => ⟨65, 64, 5, 2, G.convWeight 4, G.convBias 4⟩
  | 5 => ⟨65, 32, 5, 2, G.convWeight 5, G.convBias 5⟩
  | _ => ⟨33, 2, 5, 2, G.convWeight 6, G.convBias 6⟩

/-- The `getattr(self, "norm{}".format(block))` dispatch:
`BatchNorm2d(128)`, `BatchNorm2d(64)` (×3), `BatchNorm2d(32)`.  Only blocks
1–5 are ever used; other indices are mapped to the final norm. -/
def Generator.normAt (G : Generator) : ℕ → BatchNorm2d
  | 1 => ⟨128, G.normWeight 1, G.normBias 1⟩
  | 2 => ⟨64, G.normWeight 2, G.normBias 2⟩
  | 3 => ⟨64, G.normWeight 3, G.normBias 3⟩
  | 4 => ⟨64, G.normWeight 4, G.normBias 4⟩
  | _ => ⟨32, G.normWeight 5, G.normBias 5⟩

/-- Source `Generator.conv_block(x, v, block, last)`: concatenate the luma channel,
convolve; then normalization and ReLU, except for the last block which gets
Tanh and no normalization. -/
noncomputable def Generator.convBlock (G : Generator) (x v : Tensor4) (block : ℕ) (last : Bool) :
    Except GenError Tensor4 :=
  (cat x v).bind fun x1 =>
    (conv2dApply (G.convAt block) x1).bind fun x2 =>
      if last then .ok (tanhT x2)
      else (batchNorm2dApply (G.normAt block) x2).bind fun x3 => .ok (reluT x3)

/-- Source `Generator.forward(noise, v)`: `x = torch.cat([v, noise], 1)`; the loop
`for i in range(1, 7): x = self.conv_block(x, v, i, (i == 6))` unrolled;
then `x = self.tanh(x)` and `return torch.cat([x, v], 1)`. -/
noncomputable def Generator.forward (G : Generator) (noise v : Tensor4) : Except GenError Tensor4 :=
  (cat v noise).bind fun x0 =>
    (G.convBlock x0 v 1 false).bind fun x1 =>
      (G.convBlock x1 v 2 false).bind fun x2 =>
        (G.convBlock x2 v 3 false).bind fun x3 =>
          (G.convBlock x3 v 4 false).bind fun x4 =>
            (G.convBlock x4 v 5 false).bind fun x5 =>
              (G.convBlock x5 v 6 true).bind fun x6 =>
                cat (tanhT x6) v

/-- The activation after the first five blocks of `forward` (the stage-6
input before its in-block luma concatenation). -/
noncomputable def Generator.stage5 (G : Generator) (noise v : Tensor4) : Except GenError Tensor4 :=
  (cat v noise).bind fun x0 =>
    (G.convBlock x0 v 1 false).bind fun x1 =>
      (G.convBlock x1 v 2 false).bind fun x2 =>
        (G.convBlock x2 v 3 false).bind fun x3 =>
          (G.convBlock x3 v 4 false).bind fun x4 =>
            G.convBlock x4 v 5 false

/-! ## Analytic facts about `Real.tanh` -/

theorem real_tanh_lt_one (x : ℝ) : Real.tanh x < 1 := by
  rw [Real.tanh_eq_sinh_div_cosh, div_lt_one (Real.cosh_pos x)]
  exact Real.sinh_lt_cosh x

theorem real_neg_one_lt_tanh (x : ℝ) : -1 < Real.tanh x := by
  rw [Real.tanh_eq_sinh_div_cosh, lt_div_iff₀ (Real.cosh_pos x)]
  have h := Real.sinh_lt_cosh (-x)
  rw [Real.sinh_neg, Real.cosh_neg] at h
  linarith

theorem real_abs_tanh_le_one (x : ℝ) : |Real.tanh x| ≤ 1 :=
  abs_le.mpr ⟨(real_neg_one_lt_tanh x).le, (real_tanh_lt_one x).le⟩

theorem real_tanh_pos {x : ℝ} (hx : 0 < x) : 0 < Real.tanh x := by
  rw [Real.tanh_eq_sinh_div_cosh]
  exact div_pos (Real.sinh_pos_iff.mpr hx) (Real.cosh_pos x)

theorem real_sinh_lt_mul_cosh {x : ℝ} (hx : 0 < x) : Real.sinh x < x * Real.cosh x := by
  have hmono : StrictMonoOn (fun y : ℝ => y * Real.cosh y - Real.sinh y) (Set.Ici 0) := by
    apply strictMonoOn_of_deriv_pos (convex_Ici 0)
    · exact ((continuous_id.mul Real.continuous_cosh).sub Real.continuous_sinh).continuousOn
    · intro y hy
      rw [interior_Ici, Set.mem_Ioi] at hy
      have hd : HasDerivAt (fun y : ℝ => y * Real.cosh y - Real.sinh y)
          (1 * Real.cosh y + y * Real.sinh y - Real.cosh y) y :=
        ((hasDerivAt_id y).mul (Real.hasDerivAt_cosh y)).sub (Real.hasDerivAt_sinh y)
      rw [hd.deriv]
      have hs : 0 < Real.sinh y := Real.sinh_pos_iff.mpr hy
      nlinarith
  have h0 := hmono Set.left_mem_Ici (Set.mem_Ici.mpr hx.le) hx
  simp only [Real.cosh_zero, Real.sinh_zero, mul_one, zero_mul, sub_zero] at h0
  linarith

theorem real_tanh_lt_self {x : ℝ} (hx : 0 < x) : Real.tanh x < x := by
  rw [Real.tanh_eq_sinh_div_cosh, div_lt_iff₀ (Real.cosh_pos x)]
  exact real_sinh_lt_mul_cosh hx

/-! ## Inversion helpers for the forward pass -/

theorem ebind_ok {ε α β : Type} (a : α) (f : α → Except ε β) :
    (Except.ok a).bind f = f a := rfl

theorem ebind_error {ε α β : Type} (e : ε) (f : α → Except ε β) :
    (Except.error (α := α) e).bind f = .error (α := β) e := rfl

theorem ebind_eq_ok {ε α β : Type} (x : Except ε α) (f : α → Except ε β) (b : β) :
    x.bind f = .ok b ↔ ∃ a, x = .ok a ∧ f a = .ok b := by
  cases x with
  | error e => simp [Except.bind]
  | ok a => simp [Except.bind]

theorem cat_eq_ok (a b t : Tensor4) :
    cat a b = .ok t ↔ (a.n = b.n ∧ a.h = b.h ∧ a.w = b.w) ∧ t = catT a b := by
  unfold cat
  split_ifs with h
  · simp only [Except.ok.injEq]
    constructor
    · intro he
      exact ⟨h, he.symm⟩
    · intro he
      exact he.2.symm
  · simp only [reduceCtorEq, false_iff, not_and]
    intro hc
    exact absurd hc h

theorem conv2dApply_eq_ok (p : Conv2d) (x y : Tensor4) :
    conv2dApply p x = .ok y ↔
      (x.c = p.inC ∧ p.kernel ≤ x.h + 2 * p.pad ∧ p.kernel ≤ x.w + 2 * p.pad) ∧
        y = conv2dT p x := by
  unfold conv2dApply
  split_ifs with h
  · simp only [Except.ok.injEq]
    constructor
    · intro he
      exact ⟨h, he.symm⟩
    · intro he
      exact he.2.symm
  · simp only [reduceCtorEq, false_iff, not_and]
    intro hc
    exact absurd hc h

theorem batchNorm2dApply_eq_ok (p : BatchNorm2d) (x y : Tensor4) :
    batchNorm2dApply p x = .ok y ↔
      (x.c = p.features ∧ 1 < x.n * x.h * x.w) ∧ y = batchNorm2dT p x := by
  unfold batchNorm2dApply
  split_ifs with h
  · simp only [Except.ok.injEq]
    constructor
    · intro he
      exact ⟨h, he.symm⟩
    · intro he
      exact he.2.symm
  · simp only [reduceCtorEq, false_iff, not_and]
    intro hc
    exact absurd hc h

theorem convBlock_false_eq_ok (G : Generator) (x v out : Tensor4) (b : ℕ)
    (h : G.convBlock x v b false = .ok out) :
    ∃ s y z, cat x v = .ok s ∧ conv2dApply (G.convAt b) s = .ok y ∧
      batchNorm2dApply (G.normAt b) y = .ok z ∧ out = reluT z := by
  unfold Generator.convBlock at h
  rw [ebind_eq_ok] at h
  obtain ⟨s, hs, h⟩ := h
  rw [ebind_eq_ok] at h
  obtain ⟨y, hy, h⟩ := h
  rw [if_neg (by simp), ebind_eq_ok] at h
  obtain ⟨z, hz, h⟩ := h
  exact ⟨s, y, z, hs, hy, hz, by injection h with h; exact h.symm⟩

theorem convBlock_true_eq_ok (G : Generator) (x v out : Tensor4) (b : ℕ)
    (h : G.convBlock x v b true = .ok out) :
    ∃ s y, cat x v = .ok s ∧ conv2dApply (G.convAt b) s = .ok y ∧ out = tanhT y := by
  unfold Generator.convBlock at h
  rw [ebind_eq_ok] at h
  obtain ⟨s, hs, h⟩ := h
  rw [ebind_eq_ok] at h
  obtain ⟨y, hy, h⟩ := h
  rw [if_pos rfl] at h
  exact ⟨s, y, hs, hy, by injection h with h; exact h.symm⟩

theorem forward_eq_ok (G : Generator) (noise v out : Tensor4)
    (h : G.forward noise v = .ok out) :
    ∃ x0 x1 x2 x3 x4 x5 x6,
      cat v noise = .ok x0 ∧
      G.convBlock x0 v 1 false = .ok x1 ∧
      G.convBlock x1 v 2 false = .ok x2 ∧
      G.convBlock x2 v 3 false = .ok x3 ∧
      G.convBlock x3 v 4 false = .ok x4 ∧
      G.convBlock x4 v 5 false = .ok x5 ∧
      G.convBlock x5 v 6 true = .ok x6 ∧
      cat (tanhT x6) v = .ok out := by
  unfold Generator.forward at h
  rw [ebind_eq_ok] at h
  obtain ⟨x0, h0, h⟩ := h
  rw [ebind_eq_ok] at h
  obtain ⟨x1, h1, h⟩ := h
  rw [ebind_eq_ok] at h
  obtain ⟨x2, h2, h⟩ := h
  rw [ebind_eq_ok] at h
  obtain ⟨x3, h3, h⟩ := h
  rw [ebind_eq_ok] at h
  obtain ⟨x4, h4, h⟩ := h
  rw [ebind_eq_ok] at h
  obtain ⟨x5, h5, h⟩ := h
  rw [ebind_eq_ok] at h
  obtain ⟨x6, h6, h⟩ := h
  exact ⟨x0, x1, x2, x3, x4, x5, x6, h0, h1, h2, h3, h4, h5, h6, h⟩

/-! ## Dimension bookkeeping -/

theorem catT_n (a b : Tensor4) : (catT a b).n = a.n := rfl

theorem catT_c (a b : Tensor4) : (catT a b).c = a.c + b.c := rfl

theorem catT_h (a b : Tensor4) : (catT a b).h = a.h := rfl

theorem catT_w (a b : Tensor4) : (catT a b).w = a.w := rfl

theorem convAt_kernel_pad (G : Generator) (b : ℕ) :
    (G.convAt b).kernel = 2 * (G.convAt b).pad + 1 := by
  rcases b with _ | _ | _ | _ | _ | _ | b <;> rfl

theorem conv_dims_of_ok {G : Generator} {b : ℕ} {x y : Tensor4}
    (h : conv2dApply (G.convAt b) x = .ok y) :
    y.n = x.n ∧ y.c = (G.convAt b).outC ∧ y.h = x.h ∧ y.w = x.w := by
  have hk := convAt_kernel_pad G b
  rw [conv2dApply_eq_ok] at h
  obtain ⟨⟨-, hkh, hkw⟩, rfl⟩ := h
  refine ⟨rfl, rfl, ?_, ?_⟩ <;>
  · simp only [conv2dT]
    omega

theorem convBlock_dims_of_ok {G : Generator} {x v out : Tensor4} {b : ℕ} {last : Bool}
    (h : G.convBlock x v b last = .ok out) :
    out.n = x.n ∧ out.h = x.h ∧ out.w = x.w ∧ out.c = (G.convAt b).outC := by
  cases last with
  | false =>
    obtain ⟨s, y, z, hs, hy, hz, rfl⟩ := convBlock_false_eq_ok G x v out b h
    rw [cat_eq_ok] at hs
    obtain ⟨-, rfl⟩ := hs
    obtain ⟨hn, hc, hh, hw⟩ := conv_dims_of_ok hy
    rw [batchNorm2dApply_eq_ok] at hz
    obtain ⟨-, rfl⟩ := hz
    rw [catT_n] at hn
    rw [catT_h] at hh
    rw [catT_w] at hw
    exact ⟨hn, hh, hw, hc⟩
  | true =>
    obtain ⟨s, y, hs, hy, rfl⟩ := convBlock_true_eq_ok G x v out b h
    rw [cat_eq_ok] at hs
    obtain ⟨-, rfl⟩ := hs
    obtain ⟨hn, hc, hh, hw⟩ := conv_dims_of_ok hy
    rw [catT_n] at hn
    rw [catT_h] at hh
    rw [catT_w] at hw
    exact ⟨hn, hh, hw, hc⟩

/-- Anatomy of a successful forward pass: the inputs' non-channel dimensions
agree, both inputs are single-channel, and the output is the luma channel
concatenated onto a 2-channel stage-6 result of matching dimensions. -/
theorem forward_ok_anatomy {G : Generator} {noise v out : Tensor4}
    (h : G.forward noise v = .ok out) :
    v.h = noise.h ∧ v.w = noise.w ∧ v.n = noise.n ∧ v.c = 1 ∧ noise.c = 1 ∧
    ∃ x6 : Tensor4, x6.n = v.n ∧ x6.c = 2 ∧ x6.h = v.h ∧ x6.w = v.w ∧
      out = catT (tanhT x6) v := by
  obtain ⟨x0, x1, x2, x3, x4, x5, x6, h0, h1, h2, h3, h4, h5, h6, hout⟩ :=
    forward_eq_ok G noise v out h
  rw [cat_eq_ok] at h0
  obtain ⟨⟨hn0, hh0, hw0⟩, rfl⟩ := h0
  obtain ⟨d1n, d1h, d1w, d1c⟩ := convBlock_dims_of_ok h1
  obtain ⟨d2n, d2h, d2w, d2c⟩ := convBlock_dims_of_ok h2
  obtain ⟨d3n, d3h, d3w, d3c⟩ := convBlock_dims_of_ok h3
  obtain ⟨d4n, d4h, d4w, d4c⟩ := convBlock_dims_of_ok h4
  obtain ⟨d5n, d5h, d5w, d5c⟩ := convBlock_dims_of_ok h5
  obtain ⟨d6n, d6h, d6w, d6c⟩ := convBlock_dims_of_ok h6
  -- the stage-1 convolution sees `v.c + noise.c + v.c` channels and requires 3
  obtain ⟨s1, y1, z1, hs1, hy1, -, -⟩ := convBlock_false_eq_ok G _ v x1 1 h1
  rw [cat_eq_ok] at hs1
  obtain ⟨-, rfl⟩ := hs1
  rw [conv2dApply_eq_ok] at hy1
  obtain ⟨⟨hc1, -, -⟩, -⟩ := hy1
  rw [catT_c, catT_c] at hc1
  -- the stage-2 convolution sees `128 + v.c` channels and requires 129
  obtain ⟨s2, y2, z2, hs2, hy2, -, -⟩ := convBlock_false_eq_ok G x1 v x2 2 h2
  rw [cat_eq_ok] at hs2
  obtain ⟨-, rfl⟩ := hs2
  rw [conv2dApply_eq_ok] at hy2
  obtain ⟨⟨hc2, -, -⟩, -⟩ := hy2
  rw [catT_c, d1c] at hc2
  have houtC : (G.convAt 1).outC = 128 := rfl
  have hinC1 : (G.convAt 1).inC = 3 := rfl
  have hinC2 : (G.convAt 2).inC = 129 := rfl
  rw [houtC] at hc2
  rw [hinC2] at hc2
  rw [hinC1] at hc1
  have hv1 : v.c = 1 := by omega
  have hn1 : noise.c = 1 := by omega
  rw [cat_eq_ok] at hout
  obtain ⟨-, rfl⟩ := hout
  refine ⟨hh0, hw0, hn0, hv1, hn1, x6, ?_, ?_, ?_, ?_, rfl⟩
  · rw [d6n, d5n, d4n, d3n, d2n, d1n, catT_n]
  · rw [d6c]
    rfl
  · rw [d6h, d5h, d4h, d3h, d2h, d1h, catT_h]
  · rw [d6w, d5w, d4w, d3w, d2w, d1w, catT_w]

/-! ## Claims C2, C3, C8, C9: forward-pass guarantees -/

/-- C2: on every successful forward pass the output has 3 channels and its
third channel (index 2) is exactly the input luma tensor `v`. -/
theorem forward_third_channel_is_v {G : Generator} {noise v out : Tensor4}
    (h : G.forward noise v = .ok out) :
    out.c = 3 ∧ ∀ n i j : ℕ, out.data n 2 i j = v.data n 0 i j := by
  obtain ⟨-, -, -, hv1, -, x6, -, hc6, -, -, rfl⟩ := forward_ok_anatomy h
  constructor
  · rw [catT_c]
    show x6.c + v.c = 3
    omega
  · intro n i j
    show (if 2 < (tanhT x6).c then _ else v.data n (2 - (tanhT x6).c) i j) = v.data n 0 i j
    have hc : (tanhT x6).c = 2 := hc6
    rw [hc]
    simp

/-- C3: on every successful forward pass the output's spatial dimensions equal
those of both inputs, and every entry of its first two (chroma) channels lies
within [-1, 1]. -/
theorem forward_chroma_bounded_dims_preserved {G : Generator} {noise v out : Tensor4}
    (h : G.forward noise v = .ok out) :
    out.h = v.h ∧ out.w = v.w ∧ out.h = noise.h ∧ out.w = noise.w ∧
      ∀ n c i j : ℕ, c < 2 → |out.data n c i j| ≤ 1 := by
  obtain ⟨hh, hw, -, -, -, x6, -, hc6, hh6, hw6, rfl⟩ := forward_ok_anatomy h
  have hch : (catT (tanhT x6) v).h = v.h := by
    rw [catT_h]
    exact hh6
  have hcw : (catT (tanhT x6) v).w = v.w := by
    rw [catT_w]
    exact hw6
  refine ⟨hch, hcw, by rw [hch, hh], by rw [hcw, hw], ?_⟩
  intro n c i j hc
  show |if c < (tanhT x6).c then (tanhT x6).data n c i j else _| ≤ 1
  have hc' : (tanhT x6).c = 2 := hc6
  rw [hc', if_pos hc]
  exact real_abs_tanh_le_one _

/-- C9: a forward pass can only succeed when the noise tensor has exactly one
channel (and the luma tensor as well): the stage-1 convolution declares 3
input channels and receives `2·v.c + noise.c`, while the stage-2 convolution
pins `v.c = 1`. -/
theorem forward_ok_noise_has_one_channel {G : Generator} {noise v out : Tensor4}
    (h : G.forward noise v = .ok out) :
    noise.c = 1 ∧ v.c = 1 := by
  obtain ⟨-, -, -, hv1, hn1, -⟩ := forward_ok_anatomy h
  exact ⟨hn1, hv1⟩

/-- C8: whenever the spatial dimensions of `noise` and `v` differ, or `v` has
a channel count other than 1, the forward pass fails with the shape-mismatch
error (and no other outcome). -/
theorem forward_shape_mismatch {G : Generator} {noise v : Tensor4}
    (hbad : v.h ≠ noise.h ∨ v.w ≠ noise.w ∨ v.c ≠ 1) :
    G.forward noise v = .error .shapeMismatch := by
  cases hf : G.forward noise v with
  | error e =>
    cases e
    rfl
  | ok out =>
    obtain ⟨hh, hw, -, hv1, -⟩ := forward_ok_anatomy hf
    rcases hbad with hb | hb | hb
    · exact absurd hh hb
    · exact absurd hw hb
    · exact absurd hv1 hb

/-! ## Claim C1 (corrected): stage structure, with Tanh applied twice -/

/-- C1 amended: stages 1–5 each apply convolution, then normalization, then
ReLU (each after re-concatenating the luma channel); stage 6 applies
convolution followed by Tanh and no normalization, and `forward` then applies
Tanh once more to the whole stage-6 output before concatenating the luma
channel `v` — so the chroma part of the output equals
`tanh (tanh (conv6 (stage-6 input)))`, with Tanh applied twice, not once. -/
theorem forward_stage_structure (G : Generator) (noise v : Tensor4) :
    (∀ x : Tensor4, ∀ b : ℕ, G.convBlock x v b false =
      (cat x v).bind fun s =>
        (conv2dApply (G.convAt b) s).bind fun y =>
          (batchNorm2dApply (G.normAt b) y).bind fun z => .ok (reluT z)) ∧
    G.forward noise v =
      (G.stage5 noise v).bind fun x5 =>
        (cat x5 v).bind fun s =>
          (conv2dApply (G.convAt 6) s).bind fun y =>
            cat (tanhT (tanhT y)) v := by
  constructor
  · intro x b
    rfl
  · unfold Generator.forward Generator.stage5
    cases h0 : cat v noise with
    | error e => simp only [ebind_error]
    | ok x0 =>
      simp only [ebind_ok]
      cases h1 : G.convBlock x0 v 1 false with
      | error e => simp only [ebind_error]
      | ok x1 =>
        simp only [ebind_ok]
        cases h2 : G.convBlock x1 v 2 false with
        | error e => simp only [ebind_error]
        | ok x2 =>
          simp only [ebind_ok]
          cases h3 : G.convBlock x2 v 3 false with
          | error e => simp only [ebind_error]
          | ok x3 =>
            simp only [ebind_ok]
            cases h4 : G.convBlock x3 v 4 false with
            | error e => simp only [ebind_error]
            | ok x4 =>
              simp only [ebind_ok]
              cases h5 : G.convBlock x4 v 5 false with
              | error e => simp only [ebind_error]
              | ok x5 =>
                simp only [ebind_ok]
                unfold Generator.convBlock
                cases h6 : cat x5 v with
                | error e => simp only [ebind_error]
                | ok s =>
                  simp only [ebind_ok]
                  cases h7 : conv2dApply (G.convAt 6) s with
                  | error e => simp only [ebind_error]
                  | ok y => simp only [ebind_ok, if_true]

/-! ## Concrete instances for the generator claims -/

/-- A 1×1×1×2 all-zero luma tensor (batch 1, one channel, 1×2 spatial — two
values per channel, as training-mode batch normalization requires). -/
def vTwo : Tensor4 := ⟨1, 1, 1, 2, fun _ _ _ _ => 0⟩

/-- A matching all-zero noise tensor. -/
def noiseTwo : Tensor4 := ⟨1, 1, 1, 2, fun _ _ _ _ => 0⟩

/-- A generator whose weights and normalization parameters are all zero and
whose only nonzero parameter is the stage-6 convolution bias, set to 1. -/
noncomputable def G1 : Generator :=
  ⟨fun _ _ _ _ _ => 0, fun b _ => if b = 6 then 1 else 0, fun _ _ => 0, fun _ _ => 0⟩

/-- The output of `G1`'s forward pass on the concrete inputs. -/
noncomputable def outG1 : Tensor4 := (G1.forward noiseTwo vTwo).toOption.getD default

theorem G1_forward_ok : G1.forward noiseTwo vTwo = .ok outG1 := rfl

/-- The stage-6 convolution output (before any Tanh) on the same inputs. -/
noncomputable def stage6conv : Except GenError Tensor4 :=
  (G1.stage5 noiseTwo vTwo).bind fun x5 =>
    (cat x5 vTwo).bind fun s => conv2dApply (G1.convAt 6) s

noncomputable def stage6convOut : Tensor4 := stage6conv.toOption.getD default

theorem stage6conv_ok : stage6conv = .ok stage6convOut := rfl

/-- C2 witness: `forward_third_channel_is_v` at the concrete instance. -/
theorem forward_third_channel_is_v_witness :
    outG1.c = 3 ∧ outG1.data 0 2 0 0 = vTwo.data 0 0 0 0 := by
  have h := forward_third_channel_is_v G1_forward_ok
  exact ⟨h.1, h.2 0 0 0⟩

/-- C3 witness: `forward_chroma_bounded_dims_preserved` at the concrete
instance. -/
theorem forward_chroma_bounded_witness :
    outG1.h = vTwo.h ∧ outG1.h = noiseTwo.h ∧ |outG1.data 0 0 0 0| ≤ 1 := by
  have h := forward_chroma_bounded_dims_preserved G1_forward_ok
  exact ⟨h.1, h.2.2.1, h.2.2.2.2 0 0 0 0 (by norm_num)⟩

/-- C9 witness: `forward_ok_noise_has_one_channel` at the concrete instance. -/
theorem forward_noise_one_channel_witness : noiseTwo.c = 1 ∧ vTwo.c = 1 :=
  forward_ok_noise_has_one_channel G1_forward_ok

/-- The spec's failing example: `v` shaped 1×32×32×1 (batch, H, W, C). -/
def vSpecEx : Tensor4 := ⟨1, 1, 32, 32, fun _ _ _ _ => 0⟩

/-- The spec's failing example: `noise` shaped 1×16×16×3. -/
def noiseSpecEx : Tensor4 := ⟨1, 3, 16, 16, fun _ _ _ _ => 0⟩

/-- C8 witness: `forward_shape_mismatch` at the spec's example shapes. -/
theorem forward_shape_mismatch_witness :
    G1.forward noiseSpecEx vSpecEx = .error .shapeMismatch :=
  forward_shape_mismatch (Or.inl (by decide))

/-- C1 counterexample: at the concrete generator `G1` (all weights zero,
stage-6 bias 1) the stage-6 convolution output is 1, so the claim predicts a
chroma value of `tanh 1`; the code produces `tanh (tanh 1)` because `forward`
applies `self.tanh` again after `conv_block` already applied it, and these
differ. -/
theorem forward_single_tanh_counterexample :
    outG1.data 0 0 0 0 ≠ Real.tanh (stage6convOut.data 0 0 0 0) := by
  have h1 : stage6convOut.data 0 0 0 0 = 1 := by
    simp [stage6convOut, stage6conv, G1, Generator.stage5, Generator.convBlock, cat,
      conv2dApply, batchNorm2dApply, conv2dT, catT, batchNorm2dT, reluT, tanhT,
      Generator.convAt, Generator.normAt, vTwo, noiseTwo, Except.toOption, ebind_ok, ebind_error]
  have h2 : outG1.data 0 0 0 0 = Real.tanh (Real.tanh 1) := by
    simp [outG1, Generator.forward, G1, Generator.convBlock, cat,
      conv2dApply, batchNorm2dApply, conv2dT, catT, batchNorm2dT, reluT, tanhT,
      Generator.convAt, Generator.normAt, vTwo, noiseTwo, Except.toOption, ebind_ok, ebind_error]
  rw [h1, h2]
  have ht1 : 0 < Real.tanh 1 := real_tanh_pos one_pos
  exact ne_of_lt (real_tanh_lt_self ht1)

end ImageColorization
